import Mathlib

/-!
Verification development for the mcplibrarian runtime gateway.

The Python sources are shallowly embedded:

* `scripts/mcp_container_manager.py` (`ContainerManager`) — trigger
  detection, container lifecycle, eviction sweep;
* `src/mcp_dockerize/health/checker.py` (`MCPHealthChecker.check`) —
  the 4-level health check;
* `src/mcp_dockerize/registry/store.py` (`RegistryStore.update_health`) —
  bounded health history;
* `scripts/mcp-proxy.py` (`MCPProxy`) — the relay primitive
  `_forward_to_container` and the polymorphic keyword router
  `_route_polymorphic_call`.

The container engine (docker) is modelled as an oracle (`Engine`): a map
from container names to a running flag plus per-server success flags for
the start and stop commands.  Subprocess side effects are modelled as an
explicit command log (`EngineCmd`), and wall-clock timestamps as `Int`
seconds.  Python string operations are re-implemented on `List Char`
(ASCII-faithful) so that every definition evaluates by `decide`.
-/

/-- First-match lookup in an association list keyed by strings; embeds a
Python `dict.get` (Python dict keys are unique, so first match is the
unique match). -/
def lookupStr {α : Type} (l : List (String × α)) (k : String) : Option α :=
  match l with
  | [] => none
  | (k', v) :: rest => if k' = k then some v else lookupStr rest k

/-- `d[k] = v` on an association list: replace the first binding of `k`, or
append a new binding at the end (Python dicts keep insertion order). -/
def insertStr {α : Type} (l : List (String × α)) (k : String) (v : α) :
    List (String × α) :=
  match l with
  | [] => [(k, v)]
  | (k', v') :: rest =>
    if k' = k then (k, v) :: rest else (k', v') :: insertStr rest k v

/-- `del d[k]` on an association list. -/
def eraseStr {α : Type} (l : List (String × α)) (k : String) :
    List (String × α) :=
  l.filter (fun p => p.1 ≠ k)

/-- Apply `f` to the value bound to `k` (first binding), if any. -/
def updateStr {α : Type} (l : List (String × α)) (k : String) (f : α → α) :
    List (String × α) :=
  match l with
  | [] => []
  | (k', v) :: rest =>
    if k' = k then (k', f v) :: rest else (k', v) :: updateStr rest k f

/-- Order-preserving deduplication: keep the first occurrence of each
element (the Python `seen`-set idiom in `_parse_dot_notation`). -/
def dedupKeepFirst (l : List String) : List String :=
  l.foldl (fun acc name => if name ∈ acc then acc else acc ++ [name]) []

/-- `charsPrefixOf p l` is true when `p` is an initial segment of `l`. -/
def charsPrefixOf : List Char → List Char → Bool
  | [], _ => true
  | _ :: _, [] => false
  | a :: as, b :: bs => a == b && charsPrefixOf as bs

/-- Substring containment on character lists (Python `needle in hay`). -/
def charsContains (hay needle : List Char) : Bool :=
  match hay with
  | [] => needle.isEmpty
  | _ :: t => charsPrefixOf needle hay || charsContains t needle

/-- Python `needle in hay` on strings. -/
def strContains (hay needle : String) : Bool :=
  charsContains hay.data needle.data

/-- Python `str.lower()` (ASCII range, as used by the gateway). -/
def pyLower (s : String) : String :=
  String.mk (s.data.map Char.toLower)

/-- Python `str.strip()` on a character list. -/
def stripChars (l : List Char) : List Char :=
  ((l.dropWhile Char.isWhitespace).reverse.dropWhile Char.isWhitespace).reverse

/-- Split a character list on newline characters (Python `split('\n')`). -/
def splitNl : List Char → List (List Char)
  | [] => [[]]
  | c :: rest =>
    if c == '\n' then [] :: splitNl rest
    else
      match splitNl rest with
      | [] => [[c]]
      | g :: gs => (c :: g) :: gs

/-- Python `str.replace(pat, rep)` on character lists: replace every
non-overlapping occurrence left to right.  (The empty-pattern corner case
of Python is irrelevant here: the gateway only replaces `"_query"` and
`"_"`.) -/
def replaceChars (pat rep : List Char) : Nat → List Char → List Char
  | _, [] => []
  | 0, l => l
  | fuel + 1, c :: cs =>
    if charsPrefixOf pat (c :: cs) && !pat.isEmpty then
      rep ++ replaceChars pat rep fuel (cs.drop (pat.length - 1))
    else
      c :: replaceChars pat rep fuel cs

/-- Python `str.replace` on strings (the fuel `s.data.length` is enough
because every step of `replaceChars` consumes at least one character). -/
def pyReplace (s pat rep : String) : String :=
  String.mk (replaceChars pat.data rep.data s.data.length s.data)

/-- Python `str.endswith`. -/
def pyEndsWith (s suf : String) : Bool :=
  charsPrefixOf suf.data.reverse s.data.reverse

/-- A word character for the `\.(\w+)` pattern of `_parse_dot_notation`
(ASCII letters, digits, underscore). -/
def isWordChar (c : Char) : Bool :=
  c.isAlphanum || c == '_'

/-! ## Container manager (`scripts/mcp_container_manager.py`) -/

/-- One `registry["servers"]` value, with the JSON fields the manager
reads; absent JSON keys are `none` and the code's `.get` defaults are
applied at the use sites, exactly as in the Python. -/
structure ServerConfig where
  container_name : String
  compose_file : Option String := none
  friendly_name : Option String := none
  triggers : List String := []
  autoStop : Option Bool := none
  autoStopDelay : Option Int := none
  image : Option String := none
deriving Repr, DecidableEq

/-- The registry document: `{"servers": {...}}`, an insertion-ordered
mapping from server name to configuration. -/
structure Registry where
  servers : List (String × ServerConfig)
deriving Repr, DecidableEq

/-- Oracle for the external container engine: which container names
`docker ps` currently reports as running, and whether the engine start /
stop command for a given server exits successfully. -/
structure Engine where
  running : String → Bool
  startOk : String → Bool
  stopOk : String → Bool

/-- Engine commands issued by the manager (the subprocess calls that
change container state). -/
inductive EngineCmd where
  | start (server : String)
  | stop (server : String)
deriving Repr, DecidableEq

/-- The manager's runtime-only mutable state: `self.activity_tracker`
(server name to last-activity timestamp, seconds) and
`self.running_containers` (server name to container id). -/
structure ManagerState where
  activity_tracker : List (String × Int) := []
  running_containers : List (String × String) := []
deriving Repr, DecidableEq

/-- Result of one lifecycle operation: the returned boolean, the updated
manager state, how many times `on_container_change` was invoked, and the
engine commands issued. -/
structure StepResult where
  ok : Bool
  state : ManagerState
  notifications : Nat
  commands : List EngineCmd
deriving Repr, DecidableEq

/-- `ContainerManager.is_container_running`: authoritative re-query of the
engine (`docker ps` filtered by the configured container name); an
unknown server is reported not running. -/
def is_container_running (reg : Registry) (eng : Engine)
    (server_name : String) : Bool :=
  match lookupStr reg.servers server_name with
  | none => false
  | some config => eng.running config.container_name

/-- Scanner for the regex `\.(\w+)` of `_parse_dot_notation`: at each dot
followed by at least one word character, capture the maximal word-char
run.  The regex engine continues scanning after the consumed run; because
a captured run contains only word characters (never a dot), continuing
character-by-character through the run finds exactly the same matches,
so the recursion can stay structural. -/
def dotMatches : List Char → List String
  | [] => []
  | c :: rest =>
    if c == '.' then
      if (rest.takeWhile isWordChar).isEmpty then dotMatches rest
      else String.mk (rest.takeWhile isWordChar) :: dotMatches rest
    else dotMatches rest

/-- `ContainerManager._parse_dot_notation`: all `\.(\w+)` captures,
deduplicated preserving first-occurrence order. -/
def parse_dot_addressing (message : String) : List String :=
  dedupKeepFirst (dotMatches message.data)

/-- `ContainerManager._build_friendly_name_map`: fold over the registry,
recording `friendly_name -> server_name`; a falsy (absent or empty)
friendly name contributes nothing and a duplicate friendly name is
ignored with a warning. -/
def fnm_step (m : List (String × String)) (p : String × ServerConfig) :
    List (String × String) :=
  match p.2.friendly_name with
  | none => m
  | some fn =>
    if fn = "" then m
    else if (lookupStr m fn).isSome then m
    else m ++ [(fn, p.1)]

/-- `ContainerManager._build_friendly_name_map`, as a fold of `fnm_step`
over the registry starting from the empty table. -/
def build_friendly_name_map (servers : List (String × ServerConfig)) :
    List (String × String) :=
  servers.foldl fnm_step []

/-- `ContainerManager._map_friendly_names`: map each friendly name through
the friendly-name table, dropping unknown names. -/
def map_friendly_names (fmap : List (String × String))
    (friendly_names : List String) : List String :=
  friendly_names.filterMap (fun fn => lookupStr fmap fn)

/-- `ContainerManager.should_start_container`: explicit dot addressing
first, then implicit keyword triggers for servers not already selected
and not already running; a trigger matches as a case-insensitive
substring of the message. -/
def trigger_step (reg : Registry) (eng : Engine) (message_lower : String)
    (acc : List String) (p : String × ServerConfig) : List String :=
  if p.1 ∈ acc then acc
  else if is_container_running reg eng p.1 then acc
  else if p.2.triggers.any
      (fun trigger => strContains message_lower (pyLower trigger)) then
    acc ++ [p.1]
  else acc

/-- `ContainerManager.should_start_container`: explicit dot addressing
first, then the implicit keyword pass (`trigger_step`) over the registry
in iteration order. -/
def should_start_container (reg : Registry) (eng : Engine)
    (message : String) : List String :=
  reg.servers.foldl (trigger_step reg eng (pyLower message))
    (map_friendly_names (build_friendly_name_map reg.servers)
      (parse_dot_addressing message))

/-- `ContainerManager.update_activity`: set the activity timestamp to
`now`. -/
def update_activity (st : ManagerState) (now : Int) (server_name : String) :
    ManagerState :=
  { st with activity_tracker := insertStr st.activity_tracker server_name now }

/-- `ContainerManager.start_container`: unknown server fails; an
already-running server only refreshes activity; otherwise issue the
engine start command, and on success record activity, mark running and
notify once. -/
def start_container (reg : Registry) (eng : Engine) (st : ManagerState)
    (now : Int) (server_name : String) : StepResult :=
  match lookupStr reg.servers server_name with
  | none => ⟨false, st, 0, []⟩
  | some config =>
    if is_container_running reg eng server_name then
      ⟨true, update_activity st now server_name, 0, []⟩
    else if eng.startOk server_name then
      ⟨true,
        { activity_tracker := insertStr st.activity_tracker server_name now,
          running_containers :=
            insertStr st.running_containers server_name config.container_name },
        1, [EngineCmd.start server_name]⟩
    else
      ⟨false, st, 0, [EngineCmd.start server_name]⟩

/-- `ContainerManager.stop_container`: unknown server fails; otherwise
issue the engine stop command; on success delete the activity and
running-containers records, on failure leave the state unchanged. -/
def stop_container (reg : Registry) (eng : Engine) (st : ManagerState)
    (server_name : String) : StepResult :=
  match lookupStr reg.servers server_name with
  | none => ⟨false, st, 0, []⟩
  | some _config =>
    if eng.stopOk server_name then
      ⟨true,
        { activity_tracker := eraseStr st.activity_tracker server_name,
          running_containers := eraseStr st.running_containers server_name },
        0, [EngineCmd.stop server_name]⟩
    else
      ⟨false, st, 0, [EngineCmd.stop server_name]⟩

/-- The selection loop of `ContainerManager.cleanup_inactive`: a server is
a candidate when auto-stop is not disabled (default `True`), the engine
reports it running, it has a recorded activity timestamp, and
`now - last_activity` strictly exceeds `autoStopDelay` (default 300). -/
def sweep_check (reg : Registry) (eng : Engine) (st : ManagerState)
    (now : Int) (p : String × ServerConfig) : Option String :=
  if !(p.2.autoStop.getD true) then none
  else if !(is_container_running reg eng p.1) then none
  else
    match lookupStr st.activity_tracker p.1 with
    | none => none
    | some last_activity =>
      if now - last_activity > p.2.autoStopDelay.getD 300 then some p.1
      else none

/-- The full candidate list of one `cleanup_inactive` pass, in registry
iteration order. -/
def sweep_candidates (reg : Registry) (eng : Engine) (st : ManagerState)
    (now : Int) : List String :=
  reg.servers.filterMap (sweep_check reg eng st now)

/-- `ContainerManager.cleanup_inactive`: stop every candidate, then invoke
`on_container_change` once if the candidate list was non-empty. -/
def sweep_stop_step (reg : Registry) (eng : Engine) (acc : StepResult)
    (server_name : String) : StepResult :=
  let r := stop_container reg eng acc.state server_name
  { ok := acc.ok && r.ok, state := r.state, notifications := acc.notifications,
    commands := acc.commands ++ r.commands }

/-- `ContainerManager.cleanup_inactive`: stop every sweep candidate in
order, then invoke `on_container_change` once if the candidate list was
non-empty (batched, never once per server). -/
def cleanup_inactive (reg : Registry) (eng : Engine) (st : ManagerState)
    (now : Int) : StepResult :=
  let servers_to_stop := sweep_candidates reg eng st now
  let folded := servers_to_stop.foldl (sweep_stop_step reg eng)
    (⟨true, st, 0, []⟩ : StepResult)
  { folded with
    notifications := if servers_to_stop.isEmpty then 0 else 1 }

/-! ## Health checker (`src/mcp_dockerize/health/checker.py`) -/

/-- `HealthStatus` from `health/states.py`. -/
inductive HealthStatus where
  | healthy
  | unhealthy
  | stopped
  | unknown
  | source_missing
deriving Repr, DecidableEq

/-- `HealthCheckResult` from `health/states.py` (the response time, a
Python float, is modelled as a rational). -/
structure HealthCheckResult where
  server_name : String
  container_running : Bool
  protocol_responds : Bool
  tools_available : Bool
  response_time_ms : Rat
  status : HealthStatus
  error_message : String := ""
  check_time : String := ""
deriving Repr, DecidableEq

/-- `_MAX_HEALTHY_RESPONSE_MS` from `health/checker.py`. -/
def MAX_HEALTHY_RESPONSE_MS : Rat := 5000

/-- The registry-entry fields `MCPHealthChecker.check` reads. -/
structure HealthEntry where
  name : String
  source_path : String
deriving Repr, DecidableEq

/-- Oracle for the external effects of one `MCPHealthChecker.check`
invocation: filesystem existence plus the outcome of each probe level
(`_check_container_running`, `_check_protocol` with its measured time,
`_check_tools_list`); a timeout counts as that level's failure. -/
structure HealthProbeEnv where
  path_exists : String → Bool
  l1_ok : Bool
  l1_err : String
  l2_ok : Bool
  l2_err : String
  l2_response_ms : Rat
  l3_ok : Bool
  l3_err : String

/-- `MCPHealthChecker.check`: pre-L1 source existence, then L1 → L2 → L3
in sequence stopping at the first failure, then L4 classification by the
L2-measured response time.  (The numeric formatting inside the L4 error
message is abstracted to a fixed string.) -/
def health_check (env : HealthProbeEnv) (entry : HealthEntry) :
    HealthCheckResult :=
  if entry.source_path != "" && !(env.path_exists entry.source_path) then
    { server_name := entry.name, container_running := false,
      protocol_responds := false, tools_available := false,
      response_time_ms := 0, status := HealthStatus.source_missing,
      error_message := "Source directory not found: " ++ entry.source_path }
  else if !env.l1_ok then
    { server_name := entry.name, container_running := false,
      protocol_responds := false, tools_available := false,
      response_time_ms := 0, status := HealthStatus.stopped,
      error_message := env.l1_err }
  else if !env.l2_ok then
    { server_name := entry.name, container_running := true,
      protocol_responds := false, tools_available := false,
      response_time_ms := env.l2_response_ms, status := HealthStatus.unhealthy,
      error_message := env.l2_err }
  else if !env.l3_ok then
    { server_name := entry.name, container_running := true,
      protocol_responds := true, tools_available := false,
      response_time_ms := env.l2_response_ms, status := HealthStatus.unhealthy,
      error_message := env.l3_err }
  else if env.l2_response_ms < MAX_HEALTHY_RESPONSE_MS then
    { server_name := entry.name, container_running := true,
      protocol_responds := true, tools_available := true,
      response_time_ms := env.l2_response_ms, status := HealthStatus.healthy }
  else
    { server_name := entry.name, container_running := true,
      protocol_responds := true, tools_available := true,
      response_time_ms := env.l2_response_ms, status := HealthStatus.unhealthy,
      error_message := "Response time exceeds threshold" }

/-! ## Registry store (`src/mcp_dockerize/registry/store.py`) -/

/-- `_MAX_HEALTH_HISTORY` from `registry/store.py` (7 days of hourly
checks). -/
def MAX_HEALTH_HISTORY : Nat := 168

/-- The persisted health summary dict maintained by `update_health`. -/
structure HealthSummary where
  last_check : String := ""
  last_status : HealthStatus := HealthStatus.unknown
  consecutive_failures : Nat := 0
  total_checks : Nat := 0
deriving Repr, DecidableEq

/-- The slice of a raw persisted server entry that
`RegistryStore.update_health` reads and writes. -/
structure StoredServer where
  health_history : List HealthCheckResult := []
  health : HealthSummary := {}
deriving Repr, DecidableEq

/-- Python `history[-n:]`: the last `min n (length)` elements. -/
def takeLastN {α : Type} (n : Nat) (l : List α) : List α :=
  l.drop (l.length - n)

/-- The per-entry mutation of `RegistryStore.update_health`: append the
result, trim the history to the last 168 entries, and recompute the
summary (consecutive failures reset on any result that is neither
unhealthy nor unknown). -/
def apply_update_health (raw : StoredServer) (result : HealthCheckResult) :
    StoredServer :=
  { health_history := takeLastN MAX_HEALTH_HISTORY (raw.health_history ++ [result]),
    health :=
      { last_check := result.check_time,
        last_status := result.status,
        total_checks := raw.health.total_checks + 1,
        consecutive_failures :=
          if result.status = HealthStatus.unhealthy ∨
              result.status = HealthStatus.unknown then
            raw.health.consecutive_failures + 1
          else 0 } }

/-- `RegistryStore.update_health`: does nothing when the name is absent,
otherwise rewrites that server's entry via `apply_update_health` and
saves. -/
def update_health (servers : List (String × StoredServer)) (name : String)
    (result : HealthCheckResult) : List (String × StoredServer) :=
  match lookupStr servers name with
  | none => servers
  | some _ => updateStr servers name (fun raw => apply_update_health raw result)

/-! ## Protocol gateway relay and router (`scripts/mcp-proxy.py`) -/

/-- The serialized fresh `initialize` request `_forward_to_container`
prepends to every relayed stream (`json.dumps(initialize_request)`). -/
def INIT_REQUEST_JSON : String :=
  "\x7b\"jsonrpc\": \"2.0\", \"id\": \"init\", \"method\": \"initialize\", \"params\": \x7b\"protocolVersion\": \"2024-11-05\", \"capabilities\": \x7b\x7d, \"clientInfo\": \x7b\"name\": \"mcp-docker-proxy\", \"version\": \"0.1.0\"\x7d\x7d\x7d"

/-- The newline-delimited two-message stream piped to the ephemeral
container: the fresh initialize request followed by the real request. -/
def build_input_stream (request_json : String) : String :=
  INIT_REQUEST_JSON ++ "\n" ++ request_json ++ "\n"

/-- Result of the ephemeral `docker run` subprocess. -/
structure RunResult where
  returncode : Int
  stdout : String
  stderr : String := ""
deriving Repr, DecidableEq

/-- The response-line preprocessing of `_forward_to_container`:
`result.stdout.strip().split('\n')`, each line stripped, empty lines
dropped. -/
def response_lines (stdout : String) : List String :=
  ((splitNl (stripChars stdout.data)).map
    (fun l => String.mk (stripChars l))).filter (fun s => s != "")

/-- The parsing half of `MCPProxy._forward_to_container`, parameterised by
`json.loads` (`loads line = none` models a `JSONDecodeError`): on a zero
exit with non-empty stdout, parse the second response line when two or
more are present, fall back to the single line when exactly one is
present, and fail otherwise. -/
def forward_parse {α : Type} (loads : String → Option α) (res : RunResult) :
    Option α :=
  if res.returncode == 0 && !(stripChars res.stdout.data).isEmpty then
    match response_lines res.stdout with
    | _ :: second :: _ => loads second
    | [only] => loads only
    | [] => none
  else none

/-- Values in the argument maps built by `_route_polymorphic_call`. -/
inductive ParamValue where
  | str (s : String)
  | num (n : Int)
deriving Repr, DecidableEq

/-- The routing decision of `MCPProxy._route_polymorphic_call`: the
keyword table exists only for the server `"deeplake-rag"`; every other
server falls through with `tool_name = None` and empty params. -/
def route_polymorphic_call (server_name query : String) :
    Option String × List (String × ParamValue) :=
  let query_lower := pyLower query
  if server_name == "deeplake-rag" then
    if strContains query_lower "search" || strContains query_lower "find" ||
        strContains query_lower "retrieve" then
      (some "retrieve_context",
        [("query", ParamValue.str query), ("n_results", ParamValue.num 5)])
    else if strContains query_lower "recent" then
      (some "search_recent", [("query", ParamValue.str query)])
    else if strContains query_lower "summary" then
      (some "get_summary", [("query", ParamValue.str query)])
    else if strContains query_lower "document" && strContains query_lower "get" then
      (some "get_document", [("query", ParamValue.str query)])
    else if strContains query_lower "fuzzy" || strContains query_lower "title" then
      (some "get_fuzzy_matching_titles", [("query", ParamValue.str query)])
    else
      (some "retrieve_context",
        [("query", ParamValue.str query), ("n_results", ParamValue.num 5)])
  else
    (none, [])

/-- The `tools/call` request `_call_container_tool` synthesizes and relays
to the container; a `none` tool name serializes to JSON `null`. -/
structure SynthRequest where
  jsonrpc : String
  id : Nat
  method : String
  name : Option String
  arguments : List (String × ParamValue)
deriving Repr, DecidableEq

/-- `MCPProxy._call_container_tool`'s request construction. -/
def call_container_request (tool_name : Option String)
    (params : List (String × ParamValue)) : SynthRequest :=
  { jsonrpc := "2.0", id := 1, method := "tools/call",
    name := tool_name, arguments := params }

/-- The polymorphic-tool-name derivation in `MCPProxy.process_request`:
`tool_name.replace("_query", "").replace("_", "-")`. -/
def derive_server_name (tool_name : String) : String :=
  pyReplace (pyReplace tool_name "_query" "") "_" "-"

/-- The polymorphic branch of `MCPProxy.process_request` for `tools/call`:
when the tool name ends in `_query`, derive the server name, route the
query, and synthesize the `tools/call` request that is relayed to the
container (the relay itself is `forward_parse`). -/
def process_polymorphic_tools_call (tool_name query : String) :
    Option SynthRequest :=
  if pyEndsWith tool_name "_query" then
    let server_name := derive_server_name tool_name
    let routed := route_polymorphic_call server_name query
    some (call_container_request routed.1 routed.2)
  else none

/-! ## Concrete fixtures used by the witness theorems -/

/-- Two-server registry: `alpha` with auto-stop defaults, `beta` with
`autoStop` disabled. -/
def c1Reg : Registry :=
  ⟨[("alpha", { container_name := "c-alpha" }),
    ("beta", { container_name := "c-beta", autoStop := some false })]⟩

/-- Engine reporting every container running, all commands succeeding. -/
def c1Eng : Engine :=
  ⟨fun _ => true, fun _ => true, fun _ => true⟩

/-- Manager state with a recorded activity timestamp for `alpha` only. -/
def c1St : ManagerState :=
  ⟨[("alpha", 0)], []⟩

/-- Probe environment where every level passes quickly. -/
def c2Env : HealthProbeEnv :=
  ⟨fun _ => true, true, "", true, "", 120, true, ""⟩

/-- A registry entry with an existing source path. -/
def c2Entry : HealthEntry :=
  ⟨"srv", "/srv/path"⟩

/-- Registry with friendly names and keyword triggers. -/
def c3Reg : Registry :=
  ⟨[("deeplake-rag",
      { container_name := "c-dl", friendly_name := some "deeplake",
        triggers := ["search"] }),
    ("gemini-server",
      { container_name := "c-gm", friendly_name := some "gemini",
        triggers := ["llm"] })]⟩

/-- Engine with nothing running. -/
def c3Eng : Engine :=
  ⟨fun _ => false, fun _ => true, fun _ => true⟩

/-- One-server registry for the lifecycle witnesses. -/
def c4Reg : Registry :=
  ⟨[("alpha", { container_name := "c-alpha" })]⟩

/-- Engine reporting the container already running. -/
def c4EngUp : Engine :=
  ⟨fun _ => true, fun _ => true, fun _ => true⟩

/-- Engine with the container down and the start command failing. -/
def c4EngDown : Engine :=
  ⟨fun _ => false, fun _ => false, fun _ => true⟩

/-- Empty manager state. -/
def c4St : ManagerState :=
  ⟨[], []⟩

/-- A `json.loads` model recognising exactly the two demo response
lines. -/
def c5Loads : String → Option String :=
  fun line => if line = "INITRESP" ∨ line = "REALRESP" then some line else none

/-- One-server registry for the stop witnesses. -/
def c6Reg : Registry :=
  ⟨[("alpha", { container_name := "c-alpha" })]⟩

/-- Engine with the container not running and the stop command
succeeding (docker stop of an existing stopped container exits 0). -/
def c6EngOk : Engine :=
  ⟨fun _ => false, fun _ => true, fun _ => true⟩

/-- Engine whose stop command fails. -/
def c6EngBad : Engine :=
  ⟨fun _ => true, fun _ => true, fun _ => false⟩

/-- Manager state that believes `alpha` is running. -/
def c6StBusy : ManagerState :=
  ⟨[("alpha", 5)], [("alpha", "c-alpha")]⟩

/-- Registry for the union/deduplication witness: `deeplake-rag` has both
a friendly name and a trigger, `tableau-server` only a trigger. -/
def c7Reg : Registry :=
  ⟨[("deeplake-rag",
      { container_name := "c-dl", friendly_name := some "deeplake",
        triggers := ["search"] }),
    ("tableau-server",
      { container_name := "c-tb", triggers := ["DashBoard"] })]⟩

/-- Engine with nothing running. -/
def c7Eng : Engine :=
  ⟨fun _ => false, fun _ => true, fun _ => true⟩

/-- An old persisted health record. -/
def c8Old : HealthCheckResult :=
  ⟨"srv", false, false, false, 0, HealthStatus.stopped, "", "t0"⟩

/-- The freshly appended health record. -/
def c8New : HealthCheckResult :=
  ⟨"srv", true, true, true, 100, HealthStatus.healthy, "", "t1"⟩

/-- A store whose single server already holds a full 168-entry history. -/
def c8Servers : List (String × StoredServer) :=
  [("srv", { health_history := List.replicate 168 c8Old })]

/-- One-server registry whose trigger is `hello`. -/
def c9Reg : Registry :=
  ⟨[("alpha", { container_name := "c-alpha", triggers := ["hello"] })]⟩

/-- Engine state A: nothing running. -/
def c9EngA : Engine :=
  ⟨fun _ => false, fun _ => true, fun _ => true⟩

/-- Engine state B: everything running. -/
def c9EngB : Engine :=
  ⟨fun _ => true, fun _ => true, fun _ => true⟩

/-! ## Association-list lemmas -/

theorem lookupStr_mem {α : Type} {l : List (String × α)} {k : String} {v : α}
    (h : lookupStr l k = some v) : (k, v) ∈ l := by
  induction l with
  | nil => simp [lookupStr] at h
  | cons p rest ih =>
    obtain ⟨k', v'⟩ := p
    by_cases hk : k' = k
    · subst hk
      simp [lookupStr] at h
      subst h
      exact List.mem_cons_self _ _
    · simp [lookupStr, hk] at h
      exact List.mem_cons_of_mem _ (ih h)

theorem mem_lookupStr_isSome {α : Type} {l : List (String × α)} {k : String}
    {v : α} (h : (k, v) ∈ l) : ∃ w, lookupStr l k = some w := by
  induction l with
  | nil => simp at h
  | cons p rest ih =>
    obtain ⟨k', v'⟩ := p
    by_cases hk : k' = k
    · exact ⟨v', by simp [lookupStr, hk]⟩
    · rcases List.mem_cons.mp h with h1 | h1
      · exact absurd (congrArg Prod.fst h1).symm hk
      · obtain ⟨w, hw⟩ := ih h1
        exact ⟨w, by simp [lookupStr, hk, hw]⟩

theorem lookupStr_nodup_unique {α : Type} {l : List (String × α)}
    (hnd : (l.map Prod.fst).Nodup) {k : String} {v v' : α}
    (h : lookupStr l k = some v) (h' : (k, v') ∈ l) : v' = v := by
  induction l with
  | nil => simp at h'
  | cons p rest ih =>
    obtain ⟨k', w⟩ := p
    simp only [List.map_cons, List.nodup_cons] at hnd
    by_cases hk : k' = k
    · subst hk
      simp [lookupStr] at h
      rcases List.mem_cons.mp h' with h1 | h1
      · cases h1
        exact h
      · exact absurd (List.mem_map_of_mem Prod.fst h1) hnd.1
    · simp [lookupStr, hk] at h
      rcases List.mem_cons.mp h' with h1 | h1
      · exact absurd (congrArg Prod.fst h1).symm hk
      · exact ih hnd.2 h h1

theorem lookupStr_inj_of_values_nodup {α : Type} {m : List (String × α)}
    (h : (m.map Prod.snd).Nodup) {a b : String} {s : α}
    (ha : lookupStr m a = some s) (hb : lookupStr m b = some s) : a = b := by
  induction m with
  | nil => simp [lookupStr] at ha
  | cons p rest ih =>
    obtain ⟨k, v⟩ := p
    simp only [List.map_cons, List.nodup_cons] at h
    by_cases hka : k = a <;> by_cases hkb : k = b
    · subst hka
      subst hkb
      rfl
    · exfalso
      simp [lookupStr, hka] at ha
      simp [lookupStr, hkb] at hb
      exact h.1 (ha ▸ List.mem_map_of_mem Prod.snd (lookupStr_mem hb))
    · exfalso
      simp [lookupStr, hkb] at hb
      simp [lookupStr, hka] at ha
      exact h.1 (hb ▸ List.mem_map_of_mem Prod.snd (lookupStr_mem ha))
    · simp [lookupStr, hka] at ha
      simp [lookupStr, hkb] at hb
      exact ih h.2 ha hb

/-! ## Deduplication and friendly-map lemmas -/

theorem dedup_foldl_mem (l acc : List String) (x : String) :
    (x ∈ l.foldl (fun a name => if name ∈ a then a else a ++ [name]) acc) ↔
      x ∈ acc ∨ x ∈ l := by
  induction l generalizing acc with
  | nil => simp
  | cons a t ih =>
    simp only [List.foldl_cons]
    by_cases ha : a ∈ acc
    · rw [if_pos ha, ih]
      simp only [List.mem_cons]
      constructor
      · rintro (h | h)
        · exact Or.inl h
        · exact Or.inr (Or.inr h)
      · rintro (h | h | h)
        · exact Or.inl h
        · exact Or.inl (h ▸ ha)
        · exact Or.inr h
    · rw [if_neg ha, ih]
      simp only [List.mem_append, List.mem_singleton, List.mem_cons]
      tauto

theorem dedup_foldl_nodup (l : List String) :
    ∀ acc : List String, acc.Nodup →
      (l.foldl (fun a name => if name ∈ a then a else a ++ [name]) acc).Nodup := by
  induction l with
  | nil => intro acc h; simpa using h
  | cons a t ih =>
    intro acc h
    simp only [List.foldl_cons]
    by_cases ha : a ∈ acc
    · rw [if_pos ha]
      exact ih acc h
    · rw [if_neg ha]
      refine ih _ ?_
      rw [List.nodup_append]
      exact ⟨h, List.nodup_singleton a, fun x hx hxa => ha ((List.mem_singleton.mp hxa) ▸ hx)⟩

theorem mem_dedupKeepFirst {l : List String} {x : String} :
    x ∈ dedupKeepFirst l ↔ x ∈ l := by
  have h := dedup_foldl_mem l [] x
  simpa [dedupKeepFirst] using h

theorem nodup_dedupKeepFirst (l : List String) : (dedupKeepFirst l).Nodup :=
  dedup_foldl_nodup l [] List.nodup_nil

theorem fnm_values_nodup_aux (l : List (String × ServerConfig)) :
    ∀ acc : List (String × String),
      (acc.map Prod.snd ++ l.map Prod.fst).Nodup →
      ((l.foldl fnm_step acc).map Prod.snd).Nodup := by
  induction l with
  | nil =>
    intro acc h
    simpa using h.sublist (List.sublist_append_left _ _)
  | cons p t ih =>
    intro acc h
    simp only [List.foldl_cons]
    refine ih (fnm_step acc p) ?_
    have hdrop : (acc.map Prod.snd ++ t.map Prod.fst).Nodup := by
      refine List.Sublist.nodup ?_ h
      exact List.Sublist.append_left (List.sublist_cons_self _ _) _
    cases hf : p.2.friendly_name with
    | none =>
      have hred : fnm_step acc p = acc := by
        unfold fnm_step
        rw [hf]
      rw [hred]
      exact hdrop
    | some fn =>
      have hred : fnm_step acc p = if fn = "" then acc
          else if (lookupStr acc fn).isSome = true then acc
          else acc ++ [(fn, p.1)] := by
        unfold fnm_step
        rw [hf]
      rw [hred]
      by_cases hfn : fn = ""
      · rw [if_pos hfn]
        exact hdrop
      · rw [if_neg hfn]
        by_cases hsome : (lookupStr acc fn).isSome = true
        · rw [if_pos hsome]
          exact hdrop
        · rw [if_neg hsome]
          have heq : (acc ++ [(fn, p.1)]).map Prod.snd ++ t.map Prod.fst =
              acc.map Prod.snd ++ (p.1 :: t.map Prod.fst) := by
            simp [List.map_append, List.append_assoc]
          rw [heq]
          exact h

theorem build_friendly_name_map_values_nodup
    (servers : List (String × ServerConfig))
    (h : (servers.map Prod.fst).Nodup) :
    ((build_friendly_name_map servers).map Prod.snd).Nodup := by
  refine fnm_values_nodup_aux servers [] ?_
  simpa using h

/-! ## filterMap lemmas -/

theorem nodup_filterMap_of_inj {α : Type} {f : String → Option α}
    {l : List String} (hnd : l.Nodup)
    (hinj : ∀ a b s, f a = some s → f b = some s → a = b) :
    (l.filterMap f).Nodup := by
  induction l with
  | nil => simp
  | cons a t ih =>
    simp only [List.nodup_cons] at hnd
    rw [List.filterMap_cons]
    cases hfa : f a with
    | none => exact ih hnd.2
    | some s =>
      refine List.nodup_cons.mpr ⟨?_, ih hnd.2⟩
      intro hs
      obtain ⟨y, hyt, hys⟩ := List.mem_filterMap.mp hs
      exact hnd.1 ((hinj a y s hfa hys) ▸ hyt)

theorem count_filterMap_eq_one {α : Type} [DecidableEq α] {f : String → Option α}
    {l : List String} (hnd : l.Nodup) {x : String} {s : α} (hx : x ∈ l)
    (hfx : f x = some s) (hinj : ∀ y, f y = some s → y = x) :
    (l.filterMap f).count s = 1 := by
  induction l with
  | nil => simp at hx
  | cons a t ih =>
    simp only [List.nodup_cons] at hnd
    rcases List.mem_cons.mp hx with rfl | hxt
    · rw [List.filterMap_cons, hfx]
      rw [List.count_cons_self]
      have hzero : (t.filterMap f).count s = 0 := by
        rw [List.count_eq_zero]
        intro hmem
        obtain ⟨y, hyt, hys⟩ := List.mem_filterMap.mp hmem
        exact hnd.1 ((hinj y hys) ▸ hyt)
      rw [hzero]
    · rw [List.filterMap_cons]
      cases hfa : f a with
      | none => exact ih hnd.2 hxt
      | some b =>
        have hbs : s ≠ b := by
          intro hb
          subst hb
          exact hnd.1 ((hinj a hfa) ▸ hxt)
        rw [List.count_cons_of_ne hbs]
        exact ih hnd.2 hxt

/-! ## Trigger-fold lemmas -/

theorem trigger_step_subset (reg : Registry) (eng : Engine) (ml : String)
    (acc : List String) (p : String × ServerConfig) :
    acc ⊆ trigger_step reg eng ml acc p := by
  unfold trigger_step
  by_cases h1 : p.1 ∈ acc
  · rw [if_pos h1]
    exact List.Subset.refl acc
  · rw [if_neg h1]
    by_cases h2 : is_container_running reg eng p.1 = true
    · rw [if_pos h2]
      exact List.Subset.refl acc
    · rw [if_neg h2]
      by_cases h3 : p.2.triggers.any
          (fun trigger => strContains ml (pyLower trigger)) = true
      · rw [if_pos h3]
        exact List.subset_append_left _ _
      · rw [if_neg h3]
        exact List.Subset.refl acc

theorem trigger_foldl_subset (reg : Registry) (eng : Engine) (ml : String)
    (l : List (String × ServerConfig)) :
    ∀ acc : List String, acc ⊆ l.foldl (trigger_step reg eng ml) acc := by
  induction l with
  | nil => intro acc; simp
  | cons p t ih =>
    intro acc
    simp only [List.foldl_cons]
    exact List.Subset.trans (trigger_step_subset reg eng ml acc p)
      (ih (trigger_step reg eng ml acc p))

theorem trigger_foldl_mem (reg : Registry) (eng : Engine) (ml : String)
    (l : List (String × ServerConfig)) :
    ∀ (acc : List String) (x : String),
      x ∈ l.foldl (trigger_step reg eng ml) acc ↔
        x ∈ acc ∨ ∃ cfg, (x, cfg) ∈ l ∧
          is_container_running reg eng x = false ∧
          cfg.triggers.any (fun trigger => strContains ml (pyLower trigger)) = true := by
  induction l with
  | nil => intro acc x; simp
  | cons p t ih =>
    intro acc x
    simp only [List.foldl_cons]
    rw [ih]
    constructor
    · rintro (hx | ⟨cfg, hmem, hrun, hany⟩)
      · unfold trigger_step at hx
        by_cases h1 : p.1 ∈ acc
        · rw [if_pos h1] at hx
          exact Or.inl hx
        · rw [if_neg h1] at hx
          by_cases h2 : is_container_running reg eng p.1 = true
          · rw [if_pos h2] at hx
            exact Or.inl hx
          · rw [if_neg h2] at hx
            by_cases h3 : p.2.triggers.any
                (fun trigger => strContains ml (pyLower trigger)) = true
            · rw [if_pos h3] at hx
              rcases List.mem_append.mp hx with hxa | hxp
              · exact Or.inl hxa
              · have hx1 : x = p.1 := List.mem_singleton.mp hxp
                refine Or.inr ⟨p.2, ?_, ?_, h3⟩
                · rw [hx1]
                  exact List.mem_cons_self _ _
                · rw [hx1]
                  exact Bool.eq_false_iff.mpr h2
            · rw [if_neg h3] at hx
              exact Or.inl hx
      · exact Or.inr ⟨cfg, List.mem_cons_of_mem _ hmem, hrun, hany⟩
    · rintro (hx | ⟨cfg, hmem, hrun, hany⟩)
      · exact Or.inl (trigger_step_subset reg eng ml acc p hx)
      · rcases List.mem_cons.mp hmem with heq | hmt
        · have hx1 : x = p.1 := congrArg Prod.fst heq
          have hcfg : cfg = p.2 := congrArg Prod.snd heq
          have hstep : x ∈ trigger_step reg eng ml acc p := by
            unfold trigger_step
            by_cases h1 : p.1 ∈ acc
            · rw [if_pos h1]
              exact hx1 ▸ h1
            · rw [if_neg h1]
              have hr : is_container_running reg eng p.1 = false := hx1 ▸ hrun
              rw [hr, if_neg Bool.false_ne_true]
              have ha : (p.2.triggers.any
                  fun trigger => strContains ml (pyLower trigger)) = true :=
                hcfg ▸ hany
              rw [if_pos ha]
              refine List.mem_append_right _ ?_
              rw [hx1]
              exact List.mem_singleton_self _
          exact Or.inl hstep
        · exact Or.inr ⟨cfg, hmt, hrun, hany⟩

theorem trigger_foldl_count (reg : Registry) (eng : Engine) (ml : String)
    (l : List (String × ServerConfig)) :
    ∀ (acc : List String) (x : String), x ∈ acc →
      (l.foldl (trigger_step reg eng ml) acc).count x = acc.count x := by
  induction l with
  | nil => intro acc x _; rfl
  | cons p t ih =>
    intro acc x hx
    simp only [List.foldl_cons]
    rw [ih (trigger_step reg eng ml acc p) x (trigger_step_subset reg eng ml acc p hx)]
    unfold trigger_step
    by_cases h1 : p.1 ∈ acc
    · rw [if_pos h1]
    · rw [if_neg h1]
      by_cases h2 : is_container_running reg eng p.1 = true
      · rw [if_pos h2]
      · rw [if_neg h2]
        by_cases h3 : p.2.triggers.any
            (fun trigger => strContains ml (pyLower trigger)) = true
        · rw [if_pos h3, List.count_append]
          have hne : x ∉ [p.1] := by
            intro hmem
            exact h1 ((List.mem_singleton.mp hmem) ▸ hx)
          rw [List.count_eq_zero.mpr hne]
          omega
        · rw [if_neg h3]

theorem trigger_foldl_nodup (reg : Registry) (eng : Engine) (ml : String)
    (l : List (String × ServerConfig)) :
    ∀ acc : List String, acc.Nodup →
      (l.foldl (trigger_step reg eng ml) acc).Nodup := by
  induction l with
  | nil => intro acc h; simpa using h
  | cons p t ih =>
    intro acc h
    simp only [List.foldl_cons]
    refine ih (trigger_step reg eng ml acc p) ?_
    unfold trigger_step
    by_cases h1 : p.1 ∈ acc
    · rw [if_pos h1]; exact h
    · rw [if_neg h1]
      by_cases h2 : is_container_running reg eng p.1 = true
      · rw [if_pos h2]; exact h
      · rw [if_neg h2]
        by_cases h3 : p.2.triggers.any
            (fun trigger => strContains ml (pyLower trigger)) = true
        · rw [if_pos h3, List.nodup_append]
          exact ⟨h, List.nodup_singleton _,
            fun y hy hy1 => h1 ((List.mem_singleton.mp hy1) ▸ hy)⟩
        · rw [if_neg h3]; exact h

/-! ## Sweep lemmas -/

theorem sweep_check_fst (reg : Registry) (eng : Engine) (st : ManagerState)
    (now : Int) (p : String × ServerConfig) (s : String)
    (h : sweep_check reg eng st now p = some s) : p.1 = s := by
  unfold sweep_check at h
  by_cases h1 : (!(p.2.autoStop.getD true)) = true
  · rw [if_pos h1] at h
    exact absurd h (by simp)
  · rw [if_neg h1] at h
    by_cases h2 : (!(is_container_running reg eng p.1)) = true
    · rw [if_pos h2] at h
      exact absurd h (by simp)
    · rw [if_neg h2] at h
      cases hact : lookupStr st.activity_tracker p.1 with
      | none =>
        rw [hact] at h
        exact absurd h (by simp)
      | some last =>
        rw [hact] at h
        have h' : (if now - last > p.2.autoStopDelay.getD 300 then
            (some p.1 : Option String) else none) = some s := h
        by_cases h3 : now - last > p.2.autoStopDelay.getD 300
        · rw [if_pos h3] at h'
          exact Option.some.inj h'
        · rw [if_neg h3] at h'
          exact absurd h' (by simp)

theorem sweep_check_eq_some (reg : Registry) (eng : Engine) (st : ManagerState)
    (now : Int) (s : String) (cfg : ServerConfig) :
    sweep_check reg eng st now (s, cfg) = some s ↔
      cfg.autoStop.getD true = true ∧ is_container_running reg eng s = true ∧
        ∃ last, lookupStr st.activity_tracker s = some last ∧
          now - last > cfg.autoStopDelay.getD 300 := by
  unfold sweep_check
  cases hb : cfg.autoStop.getD true with
  | false => simp [hb]
  | true =>
    cases hr : is_container_running reg eng s with
    | false => simp [hb, hr]
    | true =>
      cases hact : lookupStr st.activity_tracker s with
      | none => simp [hb, hr, hact]
      | some last =>
        by_cases hd : now - last > cfg.autoStopDelay.getD 300
        · simp [hb, hr, hact, hd]
        · simp [hb, hr, hact, hd]

theorem mem_sweep_candidates (reg : Registry) (eng : Engine)
    (st : ManagerState) (now : Int) {s : String} {cfg : ServerConfig}
    (hnd : (reg.servers.map Prod.fst).Nodup)
    (hs : lookupStr reg.servers s = some cfg) :
    s ∈ sweep_candidates reg eng st now ↔
      cfg.autoStop.getD true = true ∧ is_container_running reg eng s = true ∧
        ∃ last, lookupStr st.activity_tracker s = some last ∧
          now - last > cfg.autoStopDelay.getD 300 := by
  unfold sweep_candidates
  rw [List.mem_filterMap]
  constructor
  · rintro ⟨p, hp, hcheck⟩
    obtain ⟨pn, pc⟩ := p
    have h1 : pn = s := sweep_check_fst reg eng st now (pn, pc) s hcheck
    subst h1
    have hpc : pc = cfg := lookupStr_nodup_unique hnd hs hp
    subst hpc
    exact (sweep_check_eq_some reg eng st now pn pc).mp hcheck
  · intro hcond
    exact ⟨(s, cfg), lookupStr_mem hs,
      (sweep_check_eq_some reg eng st now s cfg).mpr hcond⟩

theorem sweep_foldl_commands (reg : Registry) (eng : Engine)
    (ts : List String)
    (hts : ∀ s ∈ ts, (lookupStr reg.servers s).isSome = true) :
    ∀ acc : StepResult,
      (ts.foldl (sweep_stop_step reg eng) acc).commands =
        acc.commands ++ ts.map EngineCmd.stop := by
  induction ts with
  | nil => intro acc; simp
  | cons a t ih =>
    intro acc
    simp only [List.foldl_cons, List.map_cons]
    rw [ih (fun s hs => hts s (List.mem_cons_of_mem _ hs))]
    have hcmd : (stop_container reg eng acc.state a).commands =
        [EngineCmd.stop a] := by
      unfold stop_container
      obtain ⟨cfg, hcfg⟩ :=
        Option.isSome_iff_exists.mp (hts a (List.mem_cons_self _ _))
      rw [hcfg]
      by_cases he : eng.stopOk a = true
      · rw [if_pos he]
      · rw [if_neg he]
    have hstep : (sweep_stop_step reg eng acc a).commands =
        acc.commands ++ [EngineCmd.stop a] := by
      simp only [sweep_stop_step]
      rw [hcmd]
    rw [hstep, List.append_assoc]
    rfl

/-! ## Relay-parse lemmas -/

theorem response_lines_empty_of_strip_empty {s : String}
    (h : stripChars s.data = []) : response_lines s = [] := by
  unfold response_lines
  rw [h]
  rfl

theorem strip_ne_empty_of_response_lines {s : String} {l : String}
    {ls : List String} (h : response_lines s = l :: ls) :
    (stripChars s.data).isEmpty = false := by
  rcases he : (stripChars s.data).isEmpty with _ | _
  · rfl
  · exfalso
    have hnil : stripChars s.data = [] := List.isEmpty_iff.mp he
    rw [response_lines_empty_of_strip_empty hnil] at h
    exact List.noConfusion h

theorem forward_parse_of_two_lines {α : Type} (loads : String → Option α)
    (res : RunResult) (hrc : res.returncode = 0) {l1 l2 : String}
    {rest : List String}
    (hlines : response_lines res.stdout = l1 :: l2 :: rest) :
    forward_parse loads res = loads l2 := by
  unfold forward_parse
  have hcond : ((res.returncode == 0) &&
      !(stripChars res.stdout.data).isEmpty) = true := by
    rw [hrc, strip_ne_empty_of_response_lines hlines]
    rfl
  rw [if_pos hcond, hlines]

theorem forward_parse_of_one_line {α : Type} (loads : String → Option α)
    (res : RunResult) (hrc : res.returncode = 0) {l1 : String}
    (hlines : response_lines res.stdout = [l1]) :
    forward_parse loads res = loads l1 := by
  unfold forward_parse
  have hcond : ((res.returncode == 0) &&
      !(stripChars res.stdout.data).isEmpty) = true := by
    rw [hrc, strip_ne_empty_of_response_lines hlines]
    rfl
  rw [if_pos hcond, hlines]

theorem forward_parse_fail {α : Type} (loads : String → Option α)
    (res : RunResult)
    (h : ¬ res.returncode = 0 ∨ stripChars res.stdout.data = []) :
    forward_parse loads res = none := by
  unfold forward_parse
  rcases h with h | h
  · have hcond : ((res.returncode == 0) &&
        !(stripChars res.stdout.data).isEmpty) = false := by
      have : (res.returncode == 0) = false := by
        simpa using h
      rw [this]
      rfl
    rw [hcond]
    rfl
  · have hcond : ((res.returncode == 0) &&
        !(stripChars res.stdout.data).isEmpty) = false := by
      rw [h]
      simp
    rw [hcond]
    rfl

/-! ## Store lemmas -/

theorem lookupStr_updateStr {α : Type} (l : List (String × α)) (k : String)
    (f : α → α) :
    lookupStr (updateStr l k f) k = (lookupStr l k).map f := by
  induction l with
  | nil => rfl
  | cons p rest ih =>
    obtain ⟨k', v⟩ := p
    by_cases hk : k' = k
    · subst hk
      unfold updateStr
      rw [if_pos rfl]
      unfold lookupStr
      rw [if_pos rfl, if_pos rfl]
      rfl
    · unfold updateStr
      rw [if_neg hk]
      unfold lookupStr
      rw [if_neg hk, if_neg hk]
      exact ih

theorem takeLastN_length_le {α : Type} (n : Nat) (l : List α) :
    (takeLastN n l).length ≤ n := by
  unfold takeLastN
  rw [List.length_drop]
  omega

theorem takeLastN_append_singleton_of_length {α : Type} {n : Nat}
    {l : List α} (x : α) (h : l.length = n) (hpos : 1 ≤ n) :
    takeLastN n (l ++ [x]) = l.drop 1 ++ [x] := by
  unfold takeLastN
  have hlen : (l ++ [x]).length = n + 1 := by
    rw [List.length_append, h]
    rfl
  rw [hlen]
  have hsub : n + 1 - n = 1 := by omega
  rw [hsub]
  exact List.drop_append_of_le_length (by omega)

/-! ## Claim theorems -/

/-- C1: one `cleanup_inactive` pass issues a stop for a registered server
iff its `autoStop` setting is enabled (default true), the engine reports
its container running, it has a recorded last-activity timestamp, and
`now` minus that timestamp strictly exceeds `autoStopDelay` (default
300 s); and the change-notification callback fires exactly once for the
whole pass when any server was stopped, zero times otherwise. -/
theorem c1_sweep_stops_iff_notifies_once (reg : Registry) (eng : Engine)
    (st : ManagerState) (now : Int) (s : String) (cfg : ServerConfig)
    (hnd : (reg.servers.map Prod.fst).Nodup)
    (hs : lookupStr reg.servers s = some cfg) :
    (EngineCmd.stop s ∈ (cleanup_inactive reg eng st now).commands ↔
      cfg.autoStop.getD true = true ∧
        eng.running cfg.container_name = true ∧
        ∃ last, lookupStr st.activity_tracker s = some last ∧
          now - last > cfg.autoStopDelay.getD 300) ∧
    (cleanup_inactive reg eng st now).notifications =
      (if (cleanup_inactive reg eng st now).commands = [] then 0 else 1) := by
  have hrun : is_container_running reg eng s = eng.running cfg.container_name := by
    unfold is_container_running
    rw [hs]
  have hcands : ∀ x ∈ sweep_candidates reg eng st now,
      (lookupStr reg.servers x).isSome = true := by
    intro x hx
    unfold sweep_candidates at hx
    obtain ⟨p, hp, hc⟩ := List.mem_filterMap.mp hx
    have h1 : p.1 = x := sweep_check_fst reg eng st now p x hc
    obtain ⟨w, hw⟩ := mem_lookupStr_isSome (h1 ▸ hp : (x, p.2) ∈ reg.servers)
    rw [hw]
    rfl
  have hcmds : (cleanup_inactive reg eng st now).commands =
      (sweep_candidates reg eng st now).map EngineCmd.stop := by
    have h := sweep_foldl_commands reg eng (sweep_candidates reg eng st now)
      hcands ⟨true, st, 0, []⟩
    simpa [cleanup_inactive] using h
  have hnot : (cleanup_inactive reg eng st now).notifications =
      (if (sweep_candidates reg eng st now).isEmpty then 0 else 1) := by
    simp [cleanup_inactive]
  constructor
  · rw [hcmds, List.mem_map]
    constructor
    · rintro ⟨x, hx, hxeq⟩
      have hxs : x = s := by
        cases hxeq
        rfl
      subst hxs
      have hmem := (mem_sweep_candidates reg eng st now hnd hs).mp hx
      rwa [hrun] at hmem
    · intro hcond
      refine ⟨s, ?_, rfl⟩
      refine (mem_sweep_candidates reg eng st now hnd hs).mpr ?_
      refine ⟨hcond.1, ?_, hcond.2.2⟩
      rw [hrun]
      exact hcond.2.1
  · rw [hnot, hcmds]
    cases hc : sweep_candidates reg eng st now with
    | nil => simp
    | cons a t => simp

/-- C1 witness: with both servers' containers running and `alpha` idle for
301 s past its default 300 s delay, the sweep stops `alpha` and notifies
exactly once; `beta` (autoStop disabled) keeps the pass from being
per-server. -/
theorem c1_witness :
    EngineCmd.stop "alpha" ∈ (cleanup_inactive c1Reg c1Eng c1St 301).commands ∧
    (cleanup_inactive c1Reg c1Eng c1St 301).notifications = 1 := by
  have h := c1_sweep_stops_iff_notifies_once c1Reg c1Eng c1St 301 "alpha"
    { container_name := "c-alpha" } (by decide) (by decide)
  refine ⟨h.1.mpr ⟨by decide, by decide, 0, by decide, by decide⟩, ?_⟩
  rw [h.2]
  decide

/-- C2: for an entry that has a source path, a single health check's
status follows the fixed ordering: `source_missing` when the source path
does not exist on disk; else `stopped` when L1 (container running) fails;
else `unhealthy` when L2 (initialize) fails; else `unhealthy` when L3
(tools/list) fails; else `unhealthy` when the L2-measured response time
is not under the 5000 ms threshold; else `healthy`. -/
theorem c2_health_status_order (env : HealthProbeEnv) (entry : HealthEntry)
    (hsp : entry.source_path ≠ "") :
    (health_check env entry).status =
      if env.path_exists entry.source_path = false then
        HealthStatus.source_missing
      else if env.l1_ok = false then HealthStatus.stopped
      else if env.l2_ok = false then HealthStatus.unhealthy
      else if env.l3_ok = false then HealthStatus.unhealthy
      else if ¬ env.l2_response_ms < MAX_HEALTHY_RESPONSE_MS then
        HealthStatus.unhealthy
      else HealthStatus.healthy := by
  have hsp' : (entry.source_path != "") = true := bne_iff_ne.mpr hsp
  unfold health_check
  cases hpe : env.path_exists entry.source_path with
  | false => simp [hsp', hpe]
  | true =>
    cases hl1 : env.l1_ok with
    | false => simp [hsp', hpe, hl1]
    | true =>
      cases hl2 : env.l2_ok with
      | false => simp [hsp', hpe, hl1, hl2]
      | true =>
        cases hl3 : env.l3_ok with
        | false => simp [hsp', hpe, hl1, hl2, hl3]
        | true =>
          by_cases hlt : env.l2_response_ms < MAX_HEALTHY_RESPONSE_MS
          · simp [hsp', hpe, hl1, hl2, hl3, hlt]
          · simp [hsp', hpe, hl1, hl2, hl3, hlt]

/-- C2 witness: with an existing source path and all probe levels passing
at 120 ms, the check is `healthy` via the deterministic ordering. -/
theorem c2_witness :
    c2Entry.source_path ≠ "" ∧
    (health_check c2Env c2Entry).status = HealthStatus.healthy := by
  refine ⟨by decide, ?_⟩
  rw [c2_health_status_order c2Env c2Entry (by decide)]
  norm_num [c2Env, c2Entry, MAX_HEALTHY_RESPONSE_MS]

/-- C3: whenever the text contains an explicit-addressing token `.x` (the
scanner detects `x`) and `x` is a registered friendly name mapping to
server `s`, the activation list returned by `should_start_container`
contains `s` exactly once, however often `.x` repeats in the text. -/
theorem c3_explicit_token_exactly_once (reg : Registry) (eng : Engine)
    (message : String) (x s : String)
    (hnd : (reg.servers.map Prod.fst).Nodup)
    (hx : x ∈ parse_dot_addressing message)
    (hmap : lookupStr (build_friendly_name_map reg.servers) x = some s) :
    (should_start_container reg eng message).count s = 1 := by
  have hvals := build_friendly_name_map_values_nodup reg.servers hnd
  have hinj : ∀ y,
      lookupStr (build_friendly_name_map reg.servers) y = some s → y = x :=
    fun y hy => lookupStr_inj_of_values_nodup hvals hy hmap
  have hexp : (map_friendly_names (build_friendly_name_map reg.servers)
      (parse_dot_addressing message)).count s = 1 := by
    unfold map_friendly_names parse_dot_addressing
    exact count_filterMap_eq_one (nodup_dedupKeepFirst _) hx hmap hinj
  have hmem : s ∈ map_friendly_names (build_friendly_name_map reg.servers)
      (parse_dot_addressing message) := by
    have : 0 < (map_friendly_names (build_friendly_name_map reg.servers)
        (parse_dot_addressing message)).count s := by
      rw [hexp]
      omega
    exact List.count_pos_iff.mp this
  unfold should_start_container
  rw [trigger_foldl_count reg eng (pyLower message) reg.servers _ s hmem]
  exact hexp

/-- C3 witness: in `.deeplake hello .deeplake` the token repeats, yet
`deeplake-rag` appears exactly once in the activation list. -/
theorem c3_witness :
    "deeplake" ∈ parse_dot_addressing ".deeplake hello .deeplake" ∧
    lookupStr (build_friendly_name_map c3Reg.servers) "deeplake" =
      some "deeplake-rag" ∧
    (should_start_container c3Reg c3Eng
      ".deeplake hello .deeplake").count "deeplake-rag" = 1 := by
  refine ⟨by decide, by decide, ?_⟩
  exact c3_explicit_token_exactly_once c3Reg c3Eng ".deeplake hello .deeplake"
    "deeplake" "deeplake-rag" (by decide) (by decide) (by decide)

/-- C4: `start_container` is idempotent and atomic on failure.  When the
engine already reports the container running, it only refreshes the
activity timestamp, returns success, notifies nobody and issues no
engine command; when the container is down and the engine start command
fails, it returns failure with the manager state completely unchanged
(no running mark, no activity record). -/
theorem c4_start_idempotent_atomic (reg : Registry) (eng : Engine)
    (st : ManagerState) (now : Int) (name : String) (cfg : ServerConfig)
    (hc : lookupStr reg.servers name = some cfg) :
    (eng.running cfg.container_name = true →
      start_container reg eng st now name =
        ⟨true, update_activity st now name, 0, []⟩) ∧
    (eng.running cfg.container_name = false → eng.startOk name = false →
      start_container reg eng st now name =
        ⟨false, st, 0, [EngineCmd.start name]⟩) := by
  have hrun : is_container_running reg eng name =
      eng.running cfg.container_name := by
    unfold is_container_running
    rw [hc]
  constructor
  · intro h
    simp [start_container, hc, hrun, h]
  · intro h1 h2
    simp [start_container, hc, hrun, h1, h2]

/-- C4 witness: with the container up, starting `alpha` only refreshes
activity; with the container down and a failing engine start, the state
is untouched and failure is returned. -/
theorem c4_witness :
    start_container c4Reg c4EngUp c4St 7 "alpha" =
      ⟨true, update_activity c4St 7 "alpha", 0, []⟩ ∧
    start_container c4Reg c4EngDown c4St 7 "alpha" =
      ⟨false, c4St, 0, [EngineCmd.start "alpha"]⟩ :=
  ⟨(c4_start_idempotent_atomic c4Reg c4EngUp c4St 7 "alpha"
      { container_name := "c-alpha" } (by decide)).1 (by decide),
   (c4_start_idempotent_atomic c4Reg c4EngDown c4St 7 "alpha"
      { container_name := "c-alpha" } (by decide)).2 (by decide) (by decide)⟩

theorem eraseStr_of_lookup_none {α : Type} {l : List (String × α)}
    {k : String} (h : lookupStr l k = none) : eraseStr l k = l := by
  induction l with
  | nil => rfl
  | cons p rest ih =>
    obtain ⟨k', v⟩ := p
    unfold lookupStr at h
    by_cases hk : k' = k
    · rw [if_pos hk] at h
      exact absurd h (by simp)
    · rw [if_neg hk] at h
      unfold eraseStr at ih ⊢
      simp only [List.filter_cons]
      rw [ih h]
      simp [hk]

/-- C6: `stop_container` on a registered server whose container is not
running and whose manager records are absent is a state-level no-op that
returns success (the engine stop of an existing stopped container exits
0); and whenever the engine stop command fails, the activity record and
running flag are left unchanged and failure is reported. -/
theorem c6_stop_noop_and_failure (reg : Registry) (eng : Engine)
    (st : ManagerState) (name : String) (cfg : ServerConfig)
    (hc : lookupStr reg.servers name = some cfg) :
    (eng.running cfg.container_name = false → eng.stopOk name = true →
      lookupStr st.activity_tracker name = none →
      lookupStr st.running_containers name = none →
      stop_container reg eng st name = ⟨true, st, 0, [EngineCmd.stop name]⟩) ∧
    (eng.stopOk name = false →
      stop_container reg eng st name =
        ⟨false, st, 0, [EngineCmd.stop name]⟩) := by
  constructor
  · intro _hnr hok hact hrc
    simp [stop_container, hc, hok, eraseStr_of_lookup_none hact,
      eraseStr_of_lookup_none hrc]
  · intro hbad
    simp [stop_container, hc, hbad]

/-- C6 witness: stopping the not-running `alpha` with empty records is a
no-op success; with a failing engine stop, the busy state is unchanged
and failure is reported. -/
theorem c6_witness :
    stop_container c6Reg c6EngOk ⟨[], []⟩ "alpha" =
      ⟨true, ⟨[], []⟩, 0, [EngineCmd.stop "alpha"]⟩ ∧
    stop_container c6Reg c6EngBad c6StBusy "alpha" =
      ⟨false, c6StBusy, 0, [EngineCmd.stop "alpha"]⟩ :=
  ⟨(c6_stop_noop_and_failure c6Reg c6EngOk ⟨[], []⟩ "alpha"
      { container_name := "c-alpha" } (by decide)).1
      (by decide) (by decide) (by decide) (by decide),
   (c6_stop_noop_and_failure c6Reg c6EngBad c6StBusy "alpha"
      { container_name := "c-alpha" } (by decide)).2 (by decide)⟩

/-- C7: the activation list is a duplicate-free union — it is `Nodup`,
and a server is in it iff it was selected explicitly by dot addressing or
it is a registered, not-running server one of whose configured trigger
keywords occurs case-insensitively (both sides lowercased) as a
substring of the text; a server selected explicitly is never re-added by
keyword matching. -/
theorem c7_union_dedup (reg : Registry) (eng : Engine) (message : String)
    (hnd : (reg.servers.map Prod.fst).Nodup) :
    (should_start_container reg eng message).Nodup ∧
    ∀ s, s ∈ should_start_container reg eng message ↔
      (s ∈ map_friendly_names (build_friendly_name_map reg.servers)
          (parse_dot_addressing message) ∨
        ∃ cfg, (s, cfg) ∈ reg.servers ∧
          is_container_running reg eng s = false ∧
          ∃ t ∈ cfg.triggers,
            strContains (pyLower message) (pyLower t) = true) := by
  have hexp_nodup : (map_friendly_names (build_friendly_name_map reg.servers)
      (parse_dot_addressing message)).Nodup := by
    unfold map_friendly_names parse_dot_addressing
    refine nodup_filterMap_of_inj (nodup_dedupKeepFirst _) ?_
    intro a b s ha hb
    exact lookupStr_inj_of_values_nodup
      (build_friendly_name_map_values_nodup reg.servers hnd) ha hb
  constructor
  · unfold should_start_container
    exact trigger_foldl_nodup reg eng (pyLower message) reg.servers _ hexp_nodup
  · intro s
    unfold should_start_container
    rw [trigger_foldl_mem reg eng (pyLower message) reg.servers]
    simp only [List.any_eq_true]

/-- C7 witness: `use the dashBOARD .deeplake` selects `deeplake-rag`
explicitly and `tableau-server` by the case-insensitive trigger
`DashBoard`; the list is duplicate-free. -/
theorem c7_witness :
    (should_start_container c7Reg c7Eng "use the dashBOARD .deeplake").Nodup ∧
    "tableau-server" ∈
      should_start_container c7Reg c7Eng "use the dashBOARD .deeplake" := by
  have h := c7_union_dedup c7Reg c7Eng "use the dashBOARD .deeplake" (by decide)
  refine ⟨h.1, (h.2 "tableau-server").mpr (Or.inr
    ⟨{ container_name := "c-tb", triggers := ["DashBoard"] },
      by decide, by decide, "DashBoard", by decide, by decide⟩)⟩

/-- C9 counterexample: trigger detection is not a function of the text
and the registry alone.  With the same registry and the same text
`hello`, the engine state changes the output: when nothing is running the
trigger fires and `alpha` is activated, when `alpha`'s container is
already running the implicit pass skips it and the list is empty.  This
refutes the claim that any two invocations with the same text and
registry contents produce the same list. -/
theorem c9_counterexample :
    should_start_container c9Reg c9EngA "hello" ≠
      should_start_container c9Reg c9EngB "hello" := by
  decide

/-- C9 amended: trigger detection mutates no manager state by
construction (it returns only the activation list) and is a pure
function of the text, the registry, and the engine's running report:
two engines that agree on which containers are running yield identical
activation lists, whatever their other behaviour. -/
theorem c9_amended_pure_given_running (reg : Registry) (eng1 eng2 : Engine)
    (message : String) (h : ∀ c, eng1.running c = eng2.running c) :
    should_start_container reg eng1 message =
      should_start_container reg eng2 message := by
  have hrun : ∀ n, is_container_running reg eng1 n =
      is_container_running reg eng2 n := by
    intro n
    unfold is_container_running
    cases lookupStr reg.servers n with
    | none => rfl
    | some cfg => exact h cfg.container_name
  have hfold : ∀ (l : List (String × ServerConfig)) (acc : List String),
      l.foldl (trigger_step reg eng1 (pyLower message)) acc =
        l.foldl (trigger_step reg eng2 (pyLower message)) acc := by
    intro l
    induction l with
    | nil => intro acc; rfl
    | cons p t ih =>
      intro acc
      simp only [List.foldl_cons]
      have hstep : trigger_step reg eng1 (pyLower message) acc p =
          trigger_step reg eng2 (pyLower message) acc p := by
        unfold trigger_step
        rw [hrun p.1]
      rw [hstep, ih]
  unfold should_start_container
  exact hfold reg.servers _

/-- C9 amended witness: two engines that agree that everything is
running — but disagree on start/stop command success — produce the same
activation list. -/
theorem c9_amended_witness :
    should_start_container c9Reg c9EngB "hello" =
      should_start_container c9Reg
        ⟨fun _ => true, fun _ => false, fun _ => false⟩ "hello" :=
  c9_amended_pure_given_running c9Reg c9EngB
    ⟨fun _ => true, fun _ => false, fun _ => false⟩ "hello" (fun _ => rfl)

/-- C5 counterexample: the claim says the relay parses as many response
lines as messages sent (two), discards the initialize response and
returns only the response matching the real request.  But on a run whose
stdout holds exactly one response line — the initialize response
`INITRESP` — `_forward_to_container` falls back to returning that single
line instead of failing or discarding it, so a returned response is not
always the parse of a second response line. -/
theorem c5_counterexample :
    ¬ (∀ (res : RunResult) (r : String),
        forward_parse c5Loads res = some r →
        ∃ l1 l2 rest, response_lines res.stdout = l1 :: l2 :: rest ∧
          c5Loads l2 = some r) := by
  intro hclaim
  obtain ⟨l1, l2, rest, hlines, _⟩ :=
    hclaim ⟨0, "INITRESP", ""⟩ "INITRESP" (by decide)
  rw [show response_lines "INITRESP" = ["INITRESP"] from by decide] at hlines
  simp at hlines

/-- C5 amended: the relay composes exactly the two-message stream (fresh
initialize, then the real request, newline-delimited); with two or more
response lines it returns the parse of the second line, discarding the
initialize response; with exactly one response line it returns the parse
of that line, even when it is the initialize response; a run with
non-zero exit or empty stripped stdout yields no response, as does an
unparseable selected line (`loads` returning `none`). -/
theorem c5_amended_relay_parse :
    (∀ request_json : String, build_input_stream request_json =
        INIT_REQUEST_JSON ++ "\n" ++ request_json ++ "\n") ∧
    (∀ (α : Type) (loads : String → Option α) (res : RunResult)
        (l1 l2 : String) (rest : List String),
      res.returncode = 0 → response_lines res.stdout = l1 :: l2 :: rest →
      forward_parse loads res = loads l2) ∧
    (∀ (α : Type) (loads : String → Option α) (res : RunResult) (l : String),
      res.returncode = 0 → response_lines res.stdout = [l] →
      forward_parse loads res = loads l) ∧
    (∀ (α : Type) (loads : String → Option α) (res : RunResult),
      (¬ res.returncode = 0 ∨ stripChars res.stdout.data = []) →
      forward_parse loads res = none) :=
  ⟨fun _ => rfl,
   fun _ loads res _ _ _ hrc hl => forward_parse_of_two_lines loads res hrc hl,
   fun _ loads res _ hrc hl => forward_parse_of_one_line loads res hrc hl,
   fun _ loads res h => forward_parse_fail loads res h⟩

/-- C5 witness: on the two-line output the relay returns the second line
(the real response), and a non-zero exit is a relay failure. -/
theorem c5_witness :
    response_lines "INITRESP\nREALRESP" = ["INITRESP", "REALRESP"] ∧
    forward_parse c5Loads ⟨0, "INITRESP\nREALRESP", ""⟩ = some "REALRESP" ∧
    forward_parse c5Loads ⟨1, "INITRESP\nREALRESP", ""⟩ = none := by
  refine ⟨by decide, ?_, ?_⟩
  · have h := c5_amended_relay_parse.2.1 String c5Loads
      ⟨0, "INITRESP\nREALRESP", ""⟩ "INITRESP" "REALRESP" [] (by decide)
      (by decide)
    rw [h]
    decide
  · exact c5_amended_relay_parse.2.2.2 String c5Loads
      ⟨1, "INITRESP\nREALRESP", ""⟩ (Or.inl (by decide))

set_option maxRecDepth 4000 in
/-- C8: after any `update_health` call the updated server's persisted
history holds at most 168 entries; and when the history already holds
exactly 168 entries, appending evicts exactly the oldest entry, leaving
the remaining 167 in order with the new result last. -/
theorem c8_history_bounded_fifo (servers : List (String × StoredServer))
    (name : String) (result : HealthCheckResult) :
    (∀ e', lookupStr (update_health servers name result) name = some e' →
      e'.health_history.length ≤ 168) ∧
    (∀ e, lookupStr servers name = some e → e.health_history.length = 168 →
      ∀ e', lookupStr (update_health servers name result) name = some e' →
        e'.health_history = e.health_history.drop 1 ++ [result]) := by
  constructor
  · intro e' he'
    unfold update_health at he'
    cases hl : lookupStr servers name with
    | none =>
      rw [hl] at he'
      rw [hl] at he'
      exact absurd he' (by simp)
    | some e =>
      rw [hl] at he'
      rw [lookupStr_updateStr, hl] at he'
      have he2 : apply_update_health e result = e' := by
        simpa using he'
      rw [← he2]
      exact takeLastN_length_le _ _
  · intro e he hlen e' he'
    unfold update_health at he'
    rw [he] at he'
    rw [lookupStr_updateStr, he] at he'
    have he2 : apply_update_health e result = e' := by
      simpa using he'
    rw [← he2]
    exact @takeLastN_append_singleton_of_length HealthCheckResult 168
      e.health_history result hlen (by omega)

set_option maxRecDepth 20000 in
/-- C8 witness: a server whose history already holds 168 entries gets the
oldest evicted and the new result appended last, staying at 168. -/
theorem c8_witness :
    ∃ e', lookupStr (update_health c8Servers "srv" c8New) "srv" = some e' ∧
      e'.health_history.length ≤ 168 ∧
      e'.health_history = (List.replicate 168 c8Old).drop 1 ++ [c8New] := by
  have h := c8_history_bounded_fifo c8Servers "srv" c8New
  refine ⟨apply_update_health { health_history := List.replicate 168 c8Old }
    c8New, rfl, h.1 _ rfl, ?_⟩
  exact h.2 { health_history := List.replicate 168 c8Old } (by decide)
    (by simp) _ rfl

/-- C10: the polymorphic keyword router has a routing table only for
`deeplake-rag`.  For any `tools/call` whose tool name ends in `_query`
and whose derived server name is any other server, the router yields no
concrete tool name and an empty argument map, and the synthesized
`tools/call` request relayed to the container carries a null (`none`)
tool name. -/
theorem c10_router_only_deeplake (tool_name query : String)
    (hq : pyEndsWith tool_name "_query" = true)
    (hne : derive_server_name tool_name ≠ "deeplake-rag") :
    route_polymorphic_call (derive_server_name tool_name) query =
      (none, []) ∧
    process_polymorphic_tools_call tool_name query =
      some { jsonrpc := "2.0", id := 1, method := "tools/call",
             name := none, arguments := [] } := by
  have hbeq : (derive_server_name tool_name == "deeplake-rag") = false :=
    beq_eq_false_iff_ne.mpr hne
  have hroute : route_polymorphic_call (derive_server_name tool_name) query =
      (none, []) := by
    simp [route_polymorphic_call, hbeq]
  refine ⟨hroute, ?_⟩
  simp [process_polymorphic_tools_call, hq, hroute, call_container_request]

/-- C10 witness: `slack_query` derives `slack`, which has no routing
table, so the synthesized request has a null tool name and empty
arguments. -/
theorem c10_witness :
    pyEndsWith "slack_query" "_query" = true ∧
    derive_server_name "slack_query" = "slack" ∧
    process_polymorphic_tools_call "slack_query" "find recent messages" =
      some { jsonrpc := "2.0", id := 1, method := "tools/call",
             name := none, arguments := [] } := by
  refine ⟨by decide, by decide, ?_⟩
  exact (c10_router_only_deeplake "slack_query" "find recent messages"
    (by decide) (by decide)).2
